import Mathlib

/-!
Shallow embedding of the Pomodoro timer engine (`createPomodoroTimer` in
`lib/timer.ts`, reproduced in `manual_timer_test.cjs`).  The engine is a
state machine over `EngineState`; every operation that reads the wall
clock (`Date.now()`) takes the current time `now : Int` (milliseconds) as
an explicit argument.  `Math.floor((a - b) / 1000)` on integer timestamps
is `Int.fdiv (a - b) 1000` (floor division, rounding toward negative
infinity, exactly as `Math.floor` does on the real quotient).
-/

namespace Pomodoro

/-- The three session modes (`PomodoroMode` in `lib/types.ts`). -/
inductive PomodoroMode where
  | focus
  | short_break
  | long_break
deriving DecidableEq, Repr

/-- The `durations` map of `TimerSettings`: seconds per mode. -/
structure Durations where
  focus : Int
  short_break : Int
  long_break : Int
deriving DecidableEq, Repr

/-- Lookup `durations[mode]`. -/
def Durations.get (d : Durations) : PomodoroMode → Int
  | .focus => d.focus
  | .short_break => d.short_break
  | .long_break => d.long_break

/-- `TimerSettings` from `lib/types.ts`: duration map plus toggles.
`soundEnabled` and `notificationsEnabled` are carried but never read by
the engine. -/
structure TimerSettings where
  durations : Durations
  autoAdvance : Bool
  longBreakInterval : Nat
  soundEnabled : Bool
  notificationsEnabled : Bool
deriving DecidableEq, Repr

/-- The closure state of one `createPomodoroTimer` instance: the mutable
locals `settings`, `currentMode`, `remaining`, `isRunning`,
`sessionStartTime`, `remainingAtStart`, `completedFocusSessions`. -/
structure EngineState where
  settings : TimerSettings
  currentMode : PomodoroMode
  remaining : Int
  isRunning : Bool
  sessionStartTime : Option Int
  remainingAtStart : Int
  completedFocusSessions : Nat
deriving DecidableEq, Repr

/-- The initialisation performed by `createPomodoroTimer(initialSettings)`:
mode `focus`, `remaining = settings.durations[mode]`, stopped, no session
start, `remainingAtStart = remaining`, zero completed focus sessions. -/
def createPomodoroTimer (initialSettings : TimerSettings) : EngineState :=
  { settings := initialSettings
    currentMode := .focus
    remaining := initialSettings.durations.focus
    isRunning := false
    sessionStartTime := none
    remainingAtStart := initialSettings.durations.focus
    completedFocusSessions := 0 }

/-- `start()`: no-op when running; otherwise set `isRunning`, record the
start timestamp, and snapshot `remaining` into `remainingAtStart`. -/
def start (now : Int) (e : EngineState) : EngineState :=
  if e.isRunning then e
  else
    { e with isRunning := true
             sessionStartTime := some now
             remainingAtStart := e.remaining }

/-- `pause()`: no-op when not running; otherwise (when a start timestamp
exists) recompute `remaining = max 0 (remainingAtStart - elapsed)`, then
stop and clear the start timestamp. -/
def pause (now : Int) (e : EngineState) : EngineState :=
  if e.isRunning then
    let e1 :=
      match e.sessionStartTime with
      | some st =>
          let elapsed := Int.fdiv (now - st) 1000
          { e with remaining := max 0 (e.remainingAtStart - elapsed) }
      | none => e
    { e1 with isRunning := false, sessionStartTime := none }
  else e

/-- `reset(mode = currentMode)`: stop, optionally change mode, restore the
mode's full duration into `remaining` and `remainingAtStart`, clear the
start timestamp. -/
def reset (m : Option PomodoroMode) (e : EngineState) : EngineState :=
  let mode := m.getD e.currentMode
  { e with isRunning := false
           currentMode := mode
           remaining := e.settings.durations.get mode
           remainingAtStart := e.settings.durations.get mode
           sessionStartTime := none }

/-- `switchMode(mode)`: set the mode, restore its full duration into
`remaining` and `remainingAtStart`, stop, clear the start timestamp. -/
def switchMode (m : PomodoroMode) (e : EngineState) : EngineState :=
  { e with currentMode := m
           remaining := e.settings.durations.get m
           remainingAtStart := e.settings.durations.get m
           isRunning := false
           sessionStartTime := none }

/-- `updateSettings(newSettings)` with a full (totally typed)
`TimerSettings` argument: `\x7b ...settings, ...newSettings, durations:
\x7b ...newSettings.durations \x7d \x7d` replaces every field, so the stored
settings become `newSettings`; when not running, `remaining` and
`remainingAtStart` are recomputed from the (possibly new) duration of
the current mode. -/
def updateSettings (newSettings : TimerSettings) (e : EngineState) : EngineState :=
  let e1 := { e with settings := newSettings }
  if e1.isRunning then e1
  else
    { e1 with remaining := newSettings.durations.get e1.currentMode
              remainingAtStart := newSettings.durations.get e1.currentMode }

/-- The next mode chosen by `tick` on completion, given the mode that just
finished, the already incremented `completedFocusSessions`, and the
settings. -/
def nextModeOnComplete (mode : PomodoroMode) (completed : Nat)
    (s : TimerSettings) : PomodoroMode :=
  if mode = .focus then
    if 0 < s.longBreakInterval ∧ completed % s.longBreakInterval = 0 then
      .long_break
    else
      .short_break
  else
    .focus

/-- `tick(now)`: no-op returning `false` when not running.  Otherwise,
re-establish the start timestamp if absent (the source's safety branch),
compute `elapsed = floor((now - sessionStartTime) / 1000)` and
`newRemaining = remainingAtStart - elapsed`.  When `newRemaining <= 0`
the session completes: `remaining = 0`, stop, clear the timestamp,
increment `completedFocusSessions` for a focus session, and when
`autoAdvance` is set, switch to the next mode; returns `true`.  Otherwise
store `newRemaining` and return `false`. -/
def tick (now : Int) (e : EngineState) : EngineState × Bool :=
  if e.isRunning then
    let st := e.sessionStartTime.getD now
    let ras :=
      match e.sessionStartTime with
      | some _ => e.remainingAtStart
      | none => e.remaining
    let e1 := { e with sessionStartTime := some st, remainingAtStart := ras }
    let elapsed := Int.fdiv (now - st) 1000
    let newRemaining := ras - elapsed
    if newRemaining ≤ 0 then
      let completed :=
        if e1.currentMode = .focus then e1.completedFocusSessions + 1
        else e1.completedFocusSessions
      let e2 := { e1 with remaining := 0
                          isRunning := false
                          sessionStartTime := none
                          completedFocusSessions := completed }
      if e2.settings.autoAdvance then
        (switchMode (nextModeOnComplete e2.currentMode completed e2.settings) e2,
         true)
      else
        (e2, true)
    else
      ({ e1 with remaining := newRemaining }, false)
  else
    (e, false)

/-- `resumeFromState(remainingSeconds, mode, running, completed)`: store
all four arguments verbatim (`remainingAtStart` too), and set the start
timestamp to the current time exactly when `running`. -/
def resumeFromState (remainingSeconds : Int) (m : PomodoroMode)
    (running : Bool) (completed : Nat) (now : Int) (e : EngineState) :
    EngineState :=
  { e with currentMode := m
           remaining := remainingSeconds
           remainingAtStart := remainingSeconds
           completedFocusSessions := completed
           isRunning := running
           sessionStartTime := if running then some now else none }

/-- The observable part of the state: `(mode, remaining, isRunning,
completedFocusSessions)`, the four getters exposed by `state`. -/
def observe (e : EngineState) : PomodoroMode × Int × Bool × Nat :=
  (e.currentMode, e.remaining, e.isRunning, e.completedFocusSessions)

/-- The default settings of the manual test harness:
durations `\x7bfocus: 5, short_break: 2, long_break: 3\x7d`,
`autoAdvance` off, `longBreakInterval` 2. -/
def exampleSettings : TimerSettings :=
  { durations := { focus := 5, short_break := 2, long_break := 3 }
    autoAdvance := false
    longBreakInterval := 2
    soundEnabled := false
    notificationsEnabled := false }

/-! ### Operation traces

A finite sequence of engine calls, for the trace-level claims.  Each
constructor carries the arguments of the corresponding engine operation,
including the wall-clock `now` of every call that reads the clock. -/

/-- One engine call with its arguments. -/
inductive Op where
  | opStart (now : Int)
  | opPause (now : Int)
  | opReset (m : Option PomodoroMode)
  | opSwitch (m : PomodoroMode)
  | opUpdate (s : TimerSettings)
  | opTick (now : Int)
  | opResume (r : Int) (m : PomodoroMode) (running : Bool)
      (completed : Nat) (now : Int)
deriving DecidableEq, Repr

/-- Run one call against the state (the returned completion flag of
`tick` is discarded, as trace claims are about state). -/
def applyOp (e : EngineState) : Op → EngineState
  | .opStart now => start now e
  | .opPause now => pause now e
  | .opReset m => reset m e
  | .opSwitch m => switchMode m e
  | .opUpdate s => updateSettings s e
  | .opTick now => (tick now e).1
  | .opResume r m b c now => resumeFromState r m b c now e

/-- Run a finite sequence of calls. -/
def execTrace (e : EngineState) : List Op → EngineState
  | [] => e
  | op :: ops => execTrace (applyOp e op) ops

/-- Whether a call is `resumeFromState`. -/
def Op.isResume : Op → Bool
  | .opResume _ _ _ _ _ => true
  | _ => false

/-- All durations of a settings record are non-negative. -/
def settingsNonneg (s : TimerSettings) : Prop :=
  0 ≤ s.durations.focus ∧ 0 ≤ s.durations.short_break ∧
    0 ≤ s.durations.long_break

/-- The wall clock of a call does not lie before the recorded session
start (the clock never jumps backwards across calls). -/
def nowOk (e : EngineState) (now : Int) : Prop :=
  match e.sessionStartTime with
  | some st => st ≤ now
  | none => True

/-- Well-formedness of one call in a given state: clock-reading calls see
a non-decreasing clock, `updateSettings` supplies non-negative durations
and, while running, does not shrink the active mode's duration below the
running session's `remainingAtStart`, and `resumeFromState` passes a
`remainingSeconds` within `[0, durations[mode]]`. -/
def wfOp (e : EngineState) : Op → Prop
  | .opStart _ => True
  | .opPause now => nowOk e now
  | .opReset _ => True
  | .opSwitch _ => True
  | .opUpdate s => settingsNonneg s ∧
      (e.isRunning = true →
        e.remainingAtStart ≤ s.durations.get e.currentMode)
  | .opTick now => nowOk e now
  | .opResume r m _ _ _ => 0 ≤ r ∧ r ≤ e.settings.durations.get m

/-- Every call of the sequence is well-formed in the state it runs in. -/
def wfTrace (e : EngineState) : List Op → Prop
  | [] => True
  | op :: ops => wfOp e op ∧ wfTrace (applyOp e op) ops

instance decSettingsNonneg (s : TimerSettings) :
    Decidable (settingsNonneg s) := by
  unfold settingsNonneg
  infer_instance

instance decNowOk (e : EngineState) (now : Int) : Decidable (nowOk e now) :=
  match h : e.sessionStartTime with
  | some st => decidable_of_iff (st ≤ now) (by unfold nowOk; rw [h])
  | none => decidable_of_iff True (by unfold nowOk; rw [h])

instance decWfOp (e : EngineState) (op : Op) : Decidable (wfOp e op) :=
  match op with
  | .opStart _ => isTrue trivial
  | .opPause now => inferInstanceAs (Decidable (nowOk e now))
  | .opReset _ => isTrue trivial
  | .opSwitch _ => isTrue trivial
  | .opUpdate s => inferInstanceAs (Decidable (_ ∧ _))
  | .opTick now => inferInstanceAs (Decidable (nowOk e now))
  | .opResume r m _ _ _ => inferInstanceAs (Decidable (_ ∧ _))

instance decWfTrace (e : EngineState) (ops : List Op) :
    Decidable (wfTrace e ops) :=
  match ops with
  | [] => isTrue trivial
  | op :: rest =>
      have : Decidable (wfTrace (applyOp e op) rest) := decWfTrace _ _
      inferInstanceAs (Decidable (_ ∧ _))

/-- The inductive invariant behind the `remaining ∈ [0, durations[mode]]`
spec property: bounds on `remaining` and `remainingAtStart`, non-negative
stored durations, and while running, `remaining ≤ remainingAtStart` and
a present session start timestamp. -/
def Inv (e : EngineState) : Prop :=
  settingsNonneg e.settings ∧
  0 ≤ e.remaining ∧
  e.remaining ≤ e.settings.durations.get e.currentMode ∧
  0 ≤ e.remainingAtStart ∧
  e.remainingAtStart ≤ e.settings.durations.get e.currentMode ∧
  (e.isRunning = true →
    e.remaining ≤ e.remainingAtStart ∧ e.sessionStartTime ≠ none)

/-! ### Helper lemmas -/

/-- Floor division of an exact shifted multiple of 1000 milliseconds:
`floor(((a + b*1000) - a) / 1000) = b`. -/
theorem fdiv_ms (a b : Int) : Int.fdiv (a + b * 1000 - a) 1000 = b := by
  have h : a + b * 1000 - a = b * 1000 := by ring
  rw [h]
  exact Int.mul_fdiv_cancel b (by norm_num)

/-- A non-negative settings record bounds every mode lookup below. -/
theorem settingsNonneg_get {s : TimerSettings} (hs : settingsNonneg s)
    (m : PomodoroMode) : 0 ≤ s.durations.get m := by
  obtain ⟨h1, h2, h3⟩ := hs
  cases m <;> simpa [Durations.get]

/-- `start` preserves the invariant. -/
theorem inv_start (e : EngineState) (now : Int) (hInv : Inv e) :
    Inv (start now e) := by
  obtain ⟨sett, mode, rem, run, sst, ras, comp⟩ := e
  obtain ⟨hs, h0, h1, h2, h3, h4⟩ := hInv
  cases run
  · have hse : start now (⟨sett, mode, rem, false, sst, ras, comp⟩ :
        EngineState) = ⟨sett, mode, rem, true, some now, rem, comp⟩ := by
      simp [start]
    rw [hse]
    exact ⟨hs, h0, h1, h0, h1, fun _ => ⟨le_refl _, by simp⟩⟩
  · obtain ⟨hle, hsome⟩ := h4 rfl
    have hse : start now (⟨sett, mode, rem, true, sst, ras, comp⟩ :
        EngineState) = ⟨sett, mode, rem, true, sst, ras, comp⟩ := by
      simp [start]
    rw [hse]
    exact ⟨hs, h0, h1, h2, h3, fun _ => ⟨hle, hsome⟩⟩

/-- `pause` preserves the invariant (given a non-backwards clock). -/
theorem inv_pause (e : EngineState) (now : Int) (hInv : Inv e)
    (hwf : nowOk e now) : Inv (pause now e) := by
  obtain ⟨sett, mode, rem, run, sst, ras, comp⟩ := e
  obtain ⟨hs, h0, h1, h2, h3, h4⟩ := hInv
  cases run
  · have hpe : pause now (⟨sett, mode, rem, false, sst, ras, comp⟩ :
        EngineState) = ⟨sett, mode, rem, false, sst, ras, comp⟩ := by
      simp [pause]
    rw [hpe]
    exact ⟨hs, h0, h1, h2, h3, by simp⟩
  · obtain ⟨hle, hsome⟩ := h4 rfl
    dsimp only at hsome
    cases sst with
    | none => exact absurd rfl hsome
    | some st =>
      have hst : st ≤ now := by simpa [nowOk] using hwf
      have helapsed : 0 ≤ Int.fdiv (now - st) 1000 :=
        Int.fdiv_nonneg (by omega) (by norm_num)
      have hd : 0 ≤ sett.durations.get mode := settingsNonneg_get hs mode
      have hpe : pause now (⟨sett, mode, rem, true, some st, ras, comp⟩ :
          EngineState) =
          ⟨sett, mode, max 0 (ras - Int.fdiv (now - st) 1000), false, none,
            ras, comp⟩ := by
        simp [pause]
      rw [hpe]
      dsimp only at h2 h3
      refine ⟨hs, ?_, ?_, h2, h3, by simp⟩
      · dsimp only
        omega
      · dsimp only
        omega

/-- `reset` preserves the invariant. -/
theorem inv_reset (e : EngineState) (m : Option PomodoroMode)
    (hInv : Inv e) : Inv (reset m e) := by
  obtain ⟨hs, _, _, _, _, _⟩ := hInv
  have hd := settingsNonneg_get hs (m.getD e.currentMode)
  refine ⟨hs, ?_, ?_, ?_, ?_, by simp [reset]⟩ <;> simp [reset, hd]

/-- `switchMode` preserves the invariant. -/
theorem inv_switchMode (e : EngineState) (m : PomodoroMode)
    (hInv : Inv e) : Inv (switchMode m e) := by
  obtain ⟨hs, _, _, _, _, _⟩ := hInv
  have hd := settingsNonneg_get hs m
  refine ⟨hs, ?_, ?_, ?_, ?_, by simp [switchMode]⟩ <;>
    simp [switchMode, hd]

/-- `updateSettings` preserves the invariant (given non-negative new
durations that, while running, do not undercut `remainingAtStart`). -/
theorem inv_updateSettings (e : EngineState) (s : TimerSettings)
    (hInv : Inv e)
    (hwf : settingsNonneg s ∧
      (e.isRunning = true →
        e.remainingAtStart ≤ s.durations.get e.currentMode)) :
    Inv (updateSettings s e) := by
  obtain ⟨sett, mode, rem, run, sst, ras, comp⟩ := e
  obtain ⟨hs, h0, h1, h2, h3, h4⟩ := hInv
  obtain ⟨hsnew, hras⟩ := hwf
  cases run
  · have hd := settingsNonneg_get hsnew mode
    have hue : updateSettings s (⟨sett, mode, rem, false, sst, ras, comp⟩ :
        EngineState) =
        ⟨s, mode, s.durations.get mode, false, sst, s.durations.get mode,
          comp⟩ := by
      simp [updateSettings]
    rw [hue]
    exact ⟨hsnew, hd, le_refl _, hd, le_refl _, by simp⟩
  · obtain ⟨hle, hsome⟩ := h4 rfl
    have hras' := hras rfl
    dsimp only at hras' h0 h2 hle hsome
    have hue : updateSettings s (⟨sett, mode, rem, true, sst, ras, comp⟩ :
        EngineState) = ⟨s, mode, rem, true, sst, ras, comp⟩ := by
      simp [updateSettings]
    rw [hue]
    exact ⟨hsnew, h0, by dsimp only; omega, h2, by dsimp only; omega,
      fun _ => ⟨hle, hsome⟩⟩

/-- `resumeFromState` preserves the invariant (given an in-range
`remainingSeconds`). -/
theorem inv_resumeFromState (e : EngineState) (r : Int) (m : PomodoroMode)
    (b : Bool) (c : Nat) (now : Int) (hInv : Inv e)
    (hwf : 0 ≤ r ∧ r ≤ e.settings.durations.get m) :
    Inv (resumeFromState r m b c now e) := by
  obtain ⟨hs, _, _, _, _, _⟩ := hInv
  obtain ⟨hr0, hr1⟩ := hwf
  refine ⟨hs, hr0, hr1, hr0, hr1, fun hb => ⟨le_refl _, ?_⟩⟩
  cases b
  · simp [resumeFromState] at hb
  · simp [resumeFromState]

/-- `tick` preserves the invariant (given a non-backwards clock). -/
theorem inv_tick (e : EngineState) (now : Int) (hInv : Inv e)
    (hwf : nowOk e now) : Inv (tick now e).1 := by
  obtain ⟨sett, mode, rem, run, sst, ras, comp⟩ := e
  obtain ⟨hs, h0, h1, h2, h3, h4⟩ := hInv
  cases run
  · simpa [tick, Inv] using ⟨hs, h0, h1, h2, h3⟩
  · obtain ⟨hle, hsome⟩ := h4 rfl
    match hsst : sst with
    | none => exact absurd rfl (hsst ▸ hsome)
    | some st =>
      have hst : st ≤ now := by simpa [nowOk, hsst] using hwf
      have helapsed : 0 ≤ Int.fdiv (now - st) 1000 :=
        Int.fdiv_nonneg (by omega) (by norm_num)
      dsimp only at h0 h1 h2 h3 hle ⊢
      simp only [tick, if_true, Option.getD_some]
      split
      · split
        case isTrue haa =>
          set nm := nextModeOnComplete mode
            (if mode = PomodoroMode.focus then comp + 1 else comp) sett
            with hnm
          have hd := settingsNonneg_get hs nm
          refine ⟨hs, ?_, ?_, ?_, ?_, by simp [switchMode]⟩ <;>
            simp [switchMode, hd]
        case isFalse haa =>
          have hd := settingsNonneg_get hs mode
          exact ⟨hs, le_refl 0, hd, h2, h3, by simp⟩
      · case isFalse hcont =>
          refine ⟨hs, by dsimp only; omega, by dsimp only; omega,
            h2, h3, fun _ => ⟨by dsimp only; omega, by simp⟩⟩

/-- A single well-formed call preserves the invariant. -/
theorem inv_applyOp (e : EngineState) (op : Op) (hInv : Inv e)
    (hwf : wfOp e op) : Inv (applyOp e op) := by
  cases op with
  | opStart now => exact inv_start e now hInv
  | opPause now => exact inv_pause e now hInv hwf
  | opReset m => exact inv_reset e m hInv
  | opSwitch m => exact inv_switchMode e m hInv
  | opUpdate s => exact inv_updateSettings e s hInv hwf
  | opTick now => exact inv_tick e now hInv hwf
  | opResume r m b c now => exact inv_resumeFromState e r m b c now hInv hwf

/-- A well-formed trace preserves the invariant. -/
theorem inv_execTrace (e : EngineState) (ops : List Op) (hInv : Inv e)
    (hwf : wfTrace e ops) : Inv (execTrace e ops) := by
  induction ops generalizing e with
  | nil => exact hInv
  | cons op rest ih =>
      exact ih (applyOp e op) (inv_applyOp e op hInv hwf.1) hwf.2

/-- A freshly created engine with non-negative durations satisfies the
invariant. -/
theorem inv_createPomodoroTimer (s : TimerSettings)
    (hs : settingsNonneg s) : Inv (createPomodoroTimer s) := by
  refine ⟨hs, ?_, ?_, ?_, ?_, by simp [createPomodoroTimer]⟩ <;>
    simp [createPomodoroTimer, Durations.get, hs.1]

/-! ### Claim theorems -/

/-- C4: for every engine state and mode `m`, `switchMode m` produces
exactly the state `reset (some m)` produces: mode `m`, `remaining` and
`remainingAtStart` restored to `durations[m]`, stopped, start timestamp
cleared, `completedFocusSessions` unchanged. -/
theorem switchMode_eq_reset (e : EngineState) (m : PomodoroMode) :
    switchMode m e = reset (some m) e ∧
    (switchMode m e).currentMode = m ∧
    (switchMode m e).remaining = e.settings.durations.get m ∧
    (switchMode m e).remainingAtStart = e.settings.durations.get m ∧
    (switchMode m e).isRunning = false ∧
    (switchMode m e).sessionStartTime = none ∧
    (switchMode m e).completedFocusSessions = e.completedFocusSessions := by
  simp [switchMode, reset]

/-- C8: `resumeFromState` stores its arguments verbatim — `remaining` and
`remainingAtStart` are set to `remainingSeconds` with no validation or
clamping whatsoever (negative or over-duration values included), the
mode, running flag and completed count are stored as given, and the
settings are untouched. -/
theorem resumeFromState_verbatim (e : EngineState) (r : Int)
    (m : PomodoroMode) (b : Bool) (c : Nat) (now : Int) :
    (resumeFromState r m b c now e).remaining = r ∧
    (resumeFromState r m b c now e).remainingAtStart = r ∧
    (resumeFromState r m b c now e).currentMode = m ∧
    (resumeFromState r m b c now e).isRunning = b ∧
    (resumeFromState r m b c now e).completedFocusSessions = c ∧
    (resumeFromState r m b c now e).settings = e.settings := by
  simp [resumeFromState]

/-- C9: when the elapsed whole seconds since the session start reach
`remainingAtStart`, `pause` drains the session to `remaining = 0` and
stops, but signals no completion: `completedFocusSessions`, the mode and
the settings are all left unchanged (no auto-advance). -/
theorem pause_drain (e : EngineState) (now st : Int)
    (hrun : e.isRunning = true) (hst : e.sessionStartTime = some st)
    (hdrain : e.remainingAtStart ≤ Int.fdiv (now - st) 1000) :
    (pause now e).remaining = 0 ∧
    (pause now e).isRunning = false ∧
    (pause now e).sessionStartTime = none ∧
    (pause now e).completedFocusSessions = e.completedFocusSessions ∧
    (pause now e).currentMode = e.currentMode ∧
    (pause now e).settings = e.settings := by
  obtain ⟨sett, mode, rem, run, sst, ras, comp⟩ := e
  subst hrun
  subst hst
  dsimp only at hdrain
  simp only [pause, if_true]
  simp only [and_true, true_and]
  omega

/-- C10 (amended): for a running state whose `remainingAtStart` is
non-negative, `tick` with `now` strictly before the session start
timestamp computes a negative floored elapsed, stores
`remaining = remainingAtStart - floor((now - sessionStartTime)/1000)`,
which strictly exceeds `remainingAtStart`, and returns the not-completed
signal. -/
theorem tick_backwards_now (e : EngineState) (now st : Int)
    (hrun : e.isRunning = true) (hst : e.sessionStartTime = some st)
    (hpast : now < st) (hras : 0 ≤ e.remainingAtStart) :
    Int.fdiv (now - st) 1000 < 0 ∧
    (tick now e).1.remaining =
      e.remainingAtStart - Int.fdiv (now - st) 1000 ∧
    e.remainingAtStart < (tick now e).1.remaining ∧
    (tick now e).2 = false := by
  have hneg : Int.fdiv (now - st) 1000 < 0 :=
    Int.fdiv_neg' (by omega) (by norm_num)
  obtain ⟨sett, mode, rem, run, sst, ras, comp⟩ := e
  subst hrun
  subst hst
  dsimp only at hras ⊢
  simp only [tick, if_true, Option.getD_some]
  rw [if_neg (by omega)]
  refine ⟨hneg, rfl, by dsimp only; omega, rfl⟩

/-- C1 (amended): starting an idle session whose `remaining` equals the
current mode's full positive duration `d` and ticking at
`t0 + d * 1000` always completes the session and stops the timer; the
final `remaining` is `0` when `autoAdvance` is off, while with
`autoAdvance` on the engine has already switched modes, so `remaining`
equals the full duration of the new current mode. -/
theorem start_tick_full_duration (e : EngineState) (t0 d : Int)
    (hidle : e.isRunning = false)
    (hrem : e.remaining = d)
    (hdur : e.settings.durations.get e.currentMode = d)
    (hpos : 0 < d) :
    (tick (t0 + d * 1000) (start t0 e)).1.isRunning = false ∧
    (tick (t0 + d * 1000) (start t0 e)).2 = true ∧
    (e.settings.autoAdvance = false →
      (tick (t0 + d * 1000) (start t0 e)).1.remaining = 0) ∧
    (e.settings.autoAdvance = true →
      (tick (t0 + d * 1000) (start t0 e)).1.remaining =
        e.settings.durations.get
          (tick (t0 + d * 1000) (start t0 e)).1.currentMode) := by
  obtain ⟨sett, mode, rem, run, sst, ras, comp⟩ := e
  subst hidle
  subst hrem
  simp only [start, tick, switchMode, if_false, if_true, Bool.false_eq_true,
    Option.getD_some, fdiv_ms]
  rw [if_pos (by omega)]
  cases haa : sett.autoAdvance <;>
    simp [haa, switchMode]

/-- C3: with `autoAdvance` on and `longBreakInterval = n > 0`, whenever
`tick` reports a completion, a finished focus session first bumps
`completedFocusSessions` and the engine moves to `long_break` exactly
when the bumped count is divisible by `n` (otherwise `short_break`);
a finished break session always moves back to `focus`. -/
theorem tick_auto_advance_policy (e : EngineState) (now : Int) (n : Nat)
    (hauto : e.settings.autoAdvance = true)
    (hn : e.settings.longBreakInterval = n) (hn0 : 0 < n)
    (hdone : (tick now e).2 = true) :
    ((tick now e).1.completedFocusSessions =
       if e.currentMode = .focus then e.completedFocusSessions + 1
       else e.completedFocusSessions) ∧
    (e.currentMode = .focus →
      (tick now e).1.currentMode =
        (if (e.completedFocusSessions + 1) % n = 0 then PomodoroMode.long_break
         else PomodoroMode.short_break)) ∧
    (e.currentMode ≠ .focus → (tick now e).1.currentMode = .focus) := by
  obtain ⟨sett, mode, rem, run, sst, ras, comp⟩ := e
  dsimp only at hauto hn ⊢
  subst hn
  cases run with
  | false => simp [tick] at hdone
  | true =>
    simp only [tick, if_true, hauto] at hdone ⊢
    split at hdone
    case isTrue hcomplete =>
      rw [if_pos hcomplete]
      refine ⟨?_, ?_, ?_⟩
      · simp [switchMode]
      · intro hm
        subst hm
        simp [switchMode, nextModeOnComplete, hn0]
      · intro hm
        simp [switchMode, nextModeOnComplete, hm]
    case isFalse hcont => simp at hdone

/-- C2: consuming `k` seconds, pausing, idling for `g` milliseconds, then
resuming and ticking `s` further seconds is observationally identical to
having run continuously for `k + s` seconds; the idle gap `g` never
reduces `remaining`. -/
theorem pause_resume_excludes_idle (e : EngineState) (t0 k g s : Int)
    (hidle : e.isRunning = false)
    (hk0 : 0 < k) (hkd : k < e.remaining) (hg : 0 ≤ g) (hs : 0 ≤ s) :
    observe (tick (t0 + k * 1000 + g + s * 1000)
        (start (t0 + k * 1000 + g)
          (pause (t0 + k * 1000)
            (tick (t0 + k * 1000) (start t0 e)).1))).1 =
      observe (tick (t0 + (k + s) * 1000) (start t0 e)).1 := by
  obtain ⟨sett, mode, rem, run, sst, ras, comp⟩ := e
  subst hidle
  dsimp only at hkd
  have h1 : start t0 (⟨sett, mode, rem, false, sst, ras, comp⟩ : EngineState) =
      ⟨sett, mode, rem, true, some t0, rem, comp⟩ := by
    simp [start]
  rw [h1]
  have h2 : tick (t0 + k * 1000)
      (⟨sett, mode, rem, true, some t0, rem, comp⟩ : EngineState) =
      (⟨sett, mode, rem - k, true, some t0, rem, comp⟩, false) := by
    simp only [tick, if_true, Option.getD_some, fdiv_ms]
    rw [if_neg (by omega)]
  rw [h2]
  have hmax : max 0 (rem - k) = rem - k := by omega
  have h3 : pause (t0 + k * 1000)
      (⟨sett, mode, rem - k, true, some t0, rem, comp⟩ : EngineState) =
      ⟨sett, mode, rem - k, false, none, rem, comp⟩ := by
    simp only [pause, if_true, fdiv_ms, hmax]
  rw [h3]
  have h4 : start (t0 + k * 1000 + g)
      (⟨sett, mode, rem - k, false, none, rem, comp⟩ : EngineState) =
      ⟨sett, mode, rem - k, true, some (t0 + k * 1000 + g), rem - k, comp⟩ := by
    simp [start]
  rw [h4]
  simp only [tick, if_true, Option.getD_some, fdiv_ms]
  rcases le_or_lt (rem - k - s) 0 with hc | hc
  · rw [if_pos hc, if_pos (by omega : rem - (k + s) ≤ 0)]
    cases haa : sett.autoAdvance <;>
      simp [haa, observe, switchMode]
  · rw [if_neg (by omega : ¬rem - k - s ≤ 0),
        if_neg (by omega : ¬rem - (k + s) ≤ 0)]
    simp [observe, sub_sub]

/-- C5 (amended): from a fresh engine whose settings have non-negative
durations, after any finite sequence of well-formed calls — clocks that
never run backwards for `pause`/`tick`, `updateSettings` supplying
non-negative durations that, while running, do not undercut the active
session's `remainingAtStart`, and `resumeFromState` passing an in-range
`remainingSeconds` — the observable state satisfies
`0 ≤ remaining ≤ durations[mode]`. -/
theorem remaining_within_duration (s : TimerSettings) (ops : List Op)
    (hs : settingsNonneg s)
    (hwf : wfTrace (createPomodoroTimer s) ops) :
    0 ≤ (execTrace (createPomodoroTimer s) ops).remaining ∧
    (execTrace (createPomodoroTimer s) ops).remaining ≤
      (execTrace (createPomodoroTimer s) ops).settings.durations.get
        (execTrace (createPomodoroTimer s) ops).currentMode := by
  have h := inv_execTrace (createPomodoroTimer s) ops
    (inv_createPomodoroTimer s hs) hwf
  exact ⟨h.2.1, h.2.2.1⟩

/-- C5 counterexample: from a fresh engine with the test harness settings,
the one-call sequence `resumeFromState(-5, focus, false, 0)` — legal under
the claim's "arbitrary arguments" — leaves `remaining = -5`, outside
`[0, durations[mode]]`. -/
theorem remaining_within_duration_counterexample :
    (execTrace (createPomodoroTimer exampleSettings)
        [Op.opResume (-5) PomodoroMode.focus false 0 0]).remaining = -5 ∧
    ¬ (0 : Int) ≤ (execTrace (createPomodoroTimer exampleSettings)
        [Op.opResume (-5) PomodoroMode.focus false 0 0]).remaining := by
  decide

/-- One non-`resumeFromState` call never decreases
`completedFocusSessions` (`tick` handled separately below). -/
theorem completed_le_tick (e : EngineState) (now : Int) :
    e.completedFocusSessions ≤ (tick now e).1.completedFocusSessions := by
  obtain ⟨sett, mode, rem, run, sst, ras, comp⟩ := e
  cases run
  · simp [tick]
  · simp only [tick, if_true]
    split
    · split
      · simp only [switchMode]
        split <;> simp
      · split <;> simp <;> split <;> simp
    · simp

/-- One non-`resumeFromState` call never decreases
`completedFocusSessions`. -/
theorem completed_le_applyOp (e : EngineState) (op : Op)
    (h : op.isResume = false) :
    e.completedFocusSessions ≤ (applyOp e op).completedFocusSessions := by
  cases op with
  | opStart now =>
      simp only [applyOp, start]
      split <;> simp
  | opPause now =>
      simp only [applyOp, pause]
      split
      · split <;> simp
      · simp
  | opReset m => simp [applyOp, reset]
  | opSwitch m => simp [applyOp, switchMode]
  | opUpdate s =>
      simp only [applyOp, updateSettings]
      split <;> simp
  | opTick now => exact completed_le_tick e now
  | opResume r m b c now => simp [Op.isResume] at h

/-- Across a `resumeFromState`-free call sequence,
`completedFocusSessions` never decreases. -/
theorem completed_le_execTrace (e : EngineState) (ops : List Op) :
    (∀ op ∈ ops, op.isResume = false) →
    e.completedFocusSessions ≤
      (execTrace e ops).completedFocusSessions := by
  induction ops generalizing e with
  | nil => exact fun _ => le_refl _
  | cons op rest ih =>
      intro h
      exact le_trans (completed_le_applyOp e op (h op (by simp)))
        (ih (applyOp e op) (fun o ho => h o (by simp [ho])))

/-- C7: across every finite sequence of `start`, `pause`, `reset`,
`switchMode`, `updateSettings` and `tick` calls (no `resumeFromState`),
`completedFocusSessions` never decreases; `reset` and `switchMode` in
particular leave it unchanged. -/
theorem completedFocusSessions_monotone (e : EngineState) (ops : List Op)
    (h : ∀ op ∈ ops, op.isResume = false) :
    e.completedFocusSessions ≤
      (execTrace e ops).completedFocusSessions ∧
    (∀ m, (reset m e).completedFocusSessions =
      e.completedFocusSessions) ∧
    (∀ m, (switchMode m e).completedFocusSessions =
      e.completedFocusSessions) :=
  ⟨completed_le_execTrace e ops h,
   fun m => by simp [reset],
   fun m => by simp [switchMode]⟩

/-! ### Partial-update semantics of `updateSettings`

The engine's `updateSettings` executes
`settings = \x7b ...settings, ...newSettings, durations:
\x7b ...newSettings.durations \x7d \x7d`.  To examine it under a partial
(untyped) update — the situation the spec's "merged key-wise" sentence is
about — the update record is modelled with optional fields, absent fields
being JavaScript-absent keys, and the object-spread semantics of that
assignment line is translated literally. -/

/-- A possibly partial durations map: `none` is an absent key. -/
structure DurationsUpdate where
  focus : Option Int
  short_break : Option Int
  long_break : Option Int
deriving DecidableEq, Repr

/-- Lookup of a possibly absent duration. -/
def DurationsUpdate.get (d : DurationsUpdate) : PomodoroMode → Option Int
  | .focus => d.focus
  | .short_break => d.short_break
  | .long_break => d.long_break

/-- The empty durations object `\x7b\x7d` (spread of an absent map). -/
def DurationsUpdate.empty : DurationsUpdate :=
  { focus := none, short_break := none, long_break := none }

/-- A partial settings update: each absent field is an absent key. -/
structure SettingsUpdate where
  durations : Option DurationsUpdate
  autoAdvance : Option Bool
  longBreakInterval : Option Nat
  soundEnabled : Option Bool
  notificationsEnabled : Option Bool
deriving DecidableEq, Repr

/-- The settings object after the assignment: scalar fields are total
(the old record always supplies them), while duration entries can be
absent, because the `durations:` property replaces the map wholesale. -/
structure MergedSettings where
  durations : DurationsUpdate
  autoAdvance : Bool
  longBreakInterval : Nat
  soundEnabled : Bool
  notificationsEnabled : Bool
deriving DecidableEq, Repr

/-- Object-spread semantics of the engine's settings assignment
`\x7b ...settings, ...newSettings, durations:
\x7b ...newSettings.durations \x7d \x7d`: every scalar field present in
the update wins over the old value, and the `durations` property is the
spread of the update's durations object alone (the empty object when the
update has none). -/
def updateSettingsMerge (old : TimerSettings) (upd : SettingsUpdate) :
    MergedSettings :=
  { durations := upd.durations.getD DurationsUpdate.empty
    autoAdvance := upd.autoAdvance.getD old.autoAdvance
    longBreakInterval := upd.longBreakInterval.getD old.longBreakInterval
    soundEnabled := upd.soundEnabled.getD old.soundEnabled
    notificationsEnabled :=
      upd.notificationsEnabled.getD old.notificationsEnabled }

/-- A partial update that only sets the focus duration. -/
def focusOnlyUpdate : SettingsUpdate :=
  { durations := some
      { focus := some 10, short_break := none, long_break := none }
    autoAdvance := none
    longBreakInterval := none
    soundEnabled := none
    notificationsEnabled := none }

/-- C6 counterexample: updating with a durations map that only contains
`focus` loses the previous `short_break` duration (2 in the test harness
settings): the merged map has no `short_break` entry at all instead of
keeping `some 2`. -/
theorem updateSettings_merge_counterexample :
    exampleSettings.durations.short_break = 2 ∧
    (focusOnlyUpdate.durations.getD
      DurationsUpdate.empty).get PomodoroMode.short_break = none ∧
    (updateSettingsMerge exampleSettings focusOnlyUpdate).durations.get
        PomodoroMode.short_break ≠
      some exampleSettings.durations.short_break := by
  decide

/-- C6 (amended): the engine's `updateSettings` merges the scalar settings
fields key-wise — a scalar field absent from the update keeps its previous
value — but replaces the durations map wholesale with the update's
durations object, so a mode absent from the update's durations ends up
with no duration rather than its previous one.  (The key-wise merging of
durations the spec describes happens in the calling hook, before the
engine is invoked.) -/
theorem updateSettings_merge_amended (old : TimerSettings)
    (upd : SettingsUpdate) (m : PomodoroMode) :
    (upd.autoAdvance = none →
      (updateSettingsMerge old upd).autoAdvance = old.autoAdvance) ∧
    (upd.longBreakInterval = none →
      (updateSettingsMerge old upd).longBreakInterval =
        old.longBreakInterval) ∧
    (upd.soundEnabled = none →
      (updateSettingsMerge old upd).soundEnabled = old.soundEnabled) ∧
    (upd.notificationsEnabled = none →
      (updateSettingsMerge old upd).notificationsEnabled =
        old.notificationsEnabled) ∧
    ((updateSettingsMerge old upd).durations.get m =
      (upd.durations.getD DurationsUpdate.empty).get m) ∧
    (∀ du, upd.durations = some du → du.get m = none →
      (updateSettingsMerge old upd).durations.get m = none) := by
  refine ⟨?_, ?_, ?_, ?_, rfl, ?_⟩
  · intro h
    simp [updateSettingsMerge, h]
  · intro h
    simp [updateSettingsMerge, h]
  · intro h
    simp [updateSettingsMerge, h]
  · intro h
    simp [updateSettingsMerge, h]
  · intro du hdu hget
    simp [updateSettingsMerge, hdu, hget]

/-! ### Corrected-claim counterexamples for C1 and C10 -/

/-- The test harness settings with `autoAdvance` switched on. -/
def autoSettings : TimerSettings :=
  { exampleSettings with autoAdvance := true }

/-- C1 counterexample: with `autoAdvance = true` (and the other claim
hypotheses satisfied: idle fresh engine, `remaining = durations[mode] = 5
> 0`), starting at 0 and ticking at `5 * 1000` leaves `remaining = 2`
(the short break's full duration), not `0` — the claim's
"regardless of the value of autoAdvance" fails. -/
theorem start_tick_full_duration_counterexample :
    (createPomodoroTimer autoSettings).isRunning = false ∧
    (createPomodoroTimer autoSettings).remaining = 5 ∧
    autoSettings.durations.get
      (createPomodoroTimer autoSettings).currentMode = 5 ∧
    (0 : Int) < 5 ∧
    (tick 5000 (start 0 (createPomodoroTimer autoSettings))).1.isRunning
      = false ∧
    (tick 5000 (start 0 (createPomodoroTimer autoSettings))).1.remaining
      = 2 ∧
    (tick 5000 (start 0 (createPomodoroTimer autoSettings))).1.remaining
      ≠ 0 := by
  decide

/-- A running state with a negative `remainingAtStart`, reached through
`resumeFromState(-5, focus, true, 0)` at time 1000. -/
def negResumedState : EngineState :=
  resumeFromState (-5) PomodoroMode.focus true 0 1000
    (createPomodoroTimer exampleSettings)

/-- C10 counterexample: for this running state (with
`remainingAtStart = -5 < 0`), `tick 0` with `0 <` the session start
timestamp `1000` does not store
`remainingAtStart - floor((now - start)/1000) = -4`: the negative
`newRemaining` takes the completion branch, so `remaining` becomes `0`
and `tick` returns the completed signal, contradicting the claim's
"for every running state". -/
theorem tick_backwards_now_counterexample :
    negResumedState.isRunning = true ∧
    negResumedState.sessionStartTime = some 1000 ∧
    (0 : Int) < 1000 ∧
    negResumedState.remainingAtStart = -5 ∧
    (tick 0 negResumedState).1.remaining ≠
      negResumedState.remainingAtStart - Int.fdiv (0 - 1000) 1000 ∧
    (tick 0 negResumedState).2 = true := by
  decide

/-! ### Witnesses: the hypothesis-bearing theorems applied at concrete
inputs of the test harness -/

/-- A fresh engine with the test harness settings. -/
def exEngine : EngineState := createPomodoroTimer exampleSettings

/-- A fresh engine with the test harness settings and auto-advance on. -/
def exAutoEngine : EngineState := createPomodoroTimer autoSettings

/-- Witness for C1's theorem at the fresh test engine, `t0 = 0`,
`d = 5`. -/
theorem start_tick_full_duration_witness :
    exEngine.isRunning = false ∧
    exEngine.remaining = 5 ∧
    exEngine.settings.durations.get exEngine.currentMode = 5 ∧
    (0 : Int) < 5 ∧
    ((tick (0 + 5 * 1000) (start 0 exEngine)).1.isRunning = false ∧
     (tick (0 + 5 * 1000) (start 0 exEngine)).2 = true ∧
     (exEngine.settings.autoAdvance = false →
       (tick (0 + 5 * 1000) (start 0 exEngine)).1.remaining = 0) ∧
     (exEngine.settings.autoAdvance = true →
       (tick (0 + 5 * 1000) (start 0 exEngine)).1.remaining =
         exEngine.settings.durations.get
           (tick (0 + 5 * 1000) (start 0 exEngine)).1.currentMode)) :=
  ⟨by decide, by decide, by decide, by decide,
   start_tick_full_duration exEngine 0 5 (by decide) (by decide)
     (by decide) (by decide)⟩

/-- Witness for C2's theorem at the fresh test engine, `t0 = 0`, `k = 2`,
`g = 7`, `s = 3`. -/
theorem pause_resume_excludes_idle_witness :
    exEngine.isRunning = false ∧
    (0 : Int) < 2 ∧
    (2 : Int) < exEngine.remaining ∧
    (0 : Int) ≤ 7 ∧
    (0 : Int) ≤ 3 ∧
    observe (tick (0 + 2 * 1000 + 7 + 3 * 1000)
        (start (0 + 2 * 1000 + 7)
          (pause (0 + 2 * 1000)
            (tick (0 + 2 * 1000) (start 0 exEngine)).1))).1 =
      observe (tick (0 + (2 + 3) * 1000) (start 0 exEngine)).1 :=
  ⟨by decide, by decide, by decide, by decide, by decide,
   pause_resume_excludes_idle exEngine 0 2 7 3 (by decide) (by decide)
     (by decide) (by decide) (by decide)⟩

/-- Witness for C3's theorem: the first focus completion of the
auto-advance engine (`n = 2`). -/
theorem tick_auto_advance_policy_witness :
    (start 0 exAutoEngine).settings.autoAdvance = true ∧
    (start 0 exAutoEngine).settings.longBreakInterval = 2 ∧
    0 < 2 ∧
    (tick 5000 (start 0 exAutoEngine)).2 = true ∧
    (((tick 5000 (start 0 exAutoEngine)).1.completedFocusSessions =
       if (start 0 exAutoEngine).currentMode = .focus then
         (start 0 exAutoEngine).completedFocusSessions + 1
       else (start 0 exAutoEngine).completedFocusSessions) ∧
     ((start 0 exAutoEngine).currentMode = .focus →
       (tick 5000 (start 0 exAutoEngine)).1.currentMode =
         (if ((start 0 exAutoEngine).completedFocusSessions + 1) % 2 = 0
          then PomodoroMode.long_break else PomodoroMode.short_break)) ∧
     ((start 0 exAutoEngine).currentMode ≠ .focus →
       (tick 5000 (start 0 exAutoEngine)).1.currentMode = .focus)) :=
  ⟨by decide, by decide, by decide, by decide,
   tick_auto_advance_policy (start 0 exAutoEngine) 5000 2 (by decide)
     (by decide) (by decide) (by decide)⟩

/-- Witness for C5's theorem: a four-call well-formed trace (start, tick,
pause, reset). -/
theorem remaining_within_duration_witness :
    settingsNonneg exampleSettings ∧
    wfTrace (createPomodoroTimer exampleSettings)
      [Op.opStart 0, Op.opTick 2000, Op.opPause 2500, Op.opReset none] ∧
    (0 ≤ (execTrace (createPomodoroTimer exampleSettings)
        [Op.opStart 0, Op.opTick 2000, Op.opPause 2500,
          Op.opReset none]).remaining ∧
     (execTrace (createPomodoroTimer exampleSettings)
        [Op.opStart 0, Op.opTick 2000, Op.opPause 2500,
          Op.opReset none]).remaining ≤
       (execTrace (createPomodoroTimer exampleSettings)
          [Op.opStart 0, Op.opTick 2000, Op.opPause 2500,
            Op.opReset none]).settings.durations.get
         (execTrace (createPomodoroTimer exampleSettings)
            [Op.opStart 0, Op.opTick 2000, Op.opPause 2500,
              Op.opReset none]).currentMode) :=
  ⟨by decide, by decide,
   remaining_within_duration exampleSettings
     [Op.opStart 0, Op.opTick 2000, Op.opPause 2500, Op.opReset none]
     (by decide) (by decide)⟩

/-- Witness for C7's theorem: a start/tick trace that completes one focus
session, with `reset` and `switchMode` instantiated at `none` and
`focus`. -/
theorem completedFocusSessions_monotone_witness :
    exEngine.completedFocusSessions ≤
      (execTrace exEngine [Op.opStart 0, Op.opTick 5000]).completedFocusSessions ∧
    (reset none exEngine).completedFocusSessions =
      exEngine.completedFocusSessions ∧
    (switchMode PomodoroMode.short_break exEngine).completedFocusSessions =
      exEngine.completedFocusSessions :=
  ⟨(completedFocusSessions_monotone exEngine [Op.opStart 0, Op.opTick 5000]
      (by decide)).1,
   (completedFocusSessions_monotone exEngine [Op.opStart 0, Op.opTick 5000]
      (by decide)).2.1 none,
   (completedFocusSessions_monotone exEngine [Op.opStart 0, Op.opTick 5000]
      (by decide)).2.2 PomodoroMode.short_break⟩

/-- Witness for C6's amended theorem at the focus-only update. -/
theorem updateSettings_merge_amended_witness :
    (updateSettingsMerge exampleSettings focusOnlyUpdate).autoAdvance =
      exampleSettings.autoAdvance ∧
    (updateSettingsMerge exampleSettings focusOnlyUpdate).durations.get
        PomodoroMode.short_break =
      (focusOnlyUpdate.durations.getD DurationsUpdate.empty).get
        PomodoroMode.short_break ∧
    (updateSettingsMerge exampleSettings focusOnlyUpdate).durations.get
        PomodoroMode.short_break = none :=
  ⟨(updateSettings_merge_amended exampleSettings focusOnlyUpdate
      PomodoroMode.short_break).1 rfl,
   (updateSettings_merge_amended exampleSettings focusOnlyUpdate
      PomodoroMode.short_break).2.2.2.2.1,
   (updateSettings_merge_amended exampleSettings focusOnlyUpdate
      PomodoroMode.short_break).2.2.2.2.2
     { focus := some 10, short_break := none, long_break := none } rfl rfl⟩

/-- Witness for C9's theorem: the running test engine paused 99 seconds
after starting a 5-second session. -/
theorem pause_drain_witness :
    (start 0 exEngine).isRunning = true ∧
    (start 0 exEngine).sessionStartTime = some 0 ∧
    (start 0 exEngine).remainingAtStart ≤ Int.fdiv (99000 - 0) 1000 ∧
    ((pause 99000 (start 0 exEngine)).remaining = 0 ∧
     (pause 99000 (start 0 exEngine)).isRunning = false ∧
     (pause 99000 (start 0 exEngine)).sessionStartTime = none ∧
     (pause 99000 (start 0 exEngine)).completedFocusSessions =
       (start 0 exEngine).completedFocusSessions ∧
     (pause 99000 (start 0 exEngine)).currentMode =
       (start 0 exEngine).currentMode ∧
     (pause 99000 (start 0 exEngine)).settings =
       (start 0 exEngine).settings) :=
  ⟨by decide, by decide, by decide,
   pause_drain (start 0 exEngine) 99000 0 (by decide) (by decide)
     (by decide)⟩

/-- Witness for C10's theorem: the test engine started at time 1000 and
ticked at time 0. -/
theorem tick_backwards_now_witness :
    (start 1000 exEngine).isRunning = true ∧
    (start 1000 exEngine).sessionStartTime = some 1000 ∧
    (0 : Int) < 1000 ∧
    (0 : Int) ≤ (start 1000 exEngine).remainingAtStart ∧
    (Int.fdiv (0 - 1000) 1000 < 0 ∧
     (tick 0 (start 1000 exEngine)).1.remaining =
       (start 1000 exEngine).remainingAtStart - Int.fdiv (0 - 1000) 1000 ∧
     (start 1000 exEngine).remainingAtStart <
       (tick 0 (start 1000 exEngine)).1.remaining ∧
     (tick 0 (start 1000 exEngine)).2 = false) :=
  ⟨by decide, by decide, by decide, by decide,
   tick_backwards_now (start 1000 exEngine) 0 1000 (by decide) (by decide)
     (by decide) (by decide)⟩

end Pomodoro
